import Mathlib

/-!
Shallow embedding of the trickster cache-index core and named-lock manager.

Sources embedded:
* `internal/cache` index file (Index, Object, NewIndex, UpdateObject,
  RemoveObject, reap, ToBytes/IndexFromBytes).
* `pkg/locks/locks.go` (named lock registry: Acquire, Release).

Modelling conventions:
* `time.Time` values are modelled as `Int` (nanosecond ticks);
  `t1.Before(t2)` is `t1 < t2`.
* Go `int64` counters are modelled as `Int` (no claim exercises overflow).
* The Go map `map[string]*Object` is modelled as an association list
  `List (String × Object)`; a `nil` map is distinguished from an empty map
  with `Option`, because Go panics on assignment into a nil map but not on
  lookup or range.  A panic is modelled as `none` in an `Option` result.
* Functions that read the clock receive `now : Int` explicitly.
* The reaper's injected `bulkRemoveFunc` callback is a parameter
  `Index → List String → Index` (in Go it is a field of `Index` that may
  mutate the index through `RemoveObject(key, true)`); `reap` records the
  key lists it hands to the callback so that claims can speak about them.
-/

namespace Trickster

/-- `IndexKey` is the reserved key under which the index persists itself. -/
def IndexKey : String := "cache.index"

/-- Cache object metadata (Go struct `Object`).  `value` is the payload byte
slice, modelled as a list of byte values. -/
structure Object where
  key : String
  expiration : Int
  lastWrite : Int
  lastAccess : Int
  size : Int
  value : List Nat
deriving DecidableEq, Repr

/-- Cache index metadata (Go struct `Index`), restricted to its three
serialized fields.  The non-persisted runtime fields (name, config and the
two callbacks) are passed explicitly to the operations that use them.
`objects = none` models a nil Go map. -/
structure Index where
  cacheSize : Int
  objectCount : Int
  objects : Option (List (String × Object))
deriving DecidableEq, Repr

/-- Association-list lookup, modelling Go map read `m[k]`. -/
def lookupKey {β : Type} (k : String) : List (String × β) → Option β
  | [] => none
  | (k2, v) :: rest => if k = k2 then some v else lookupKey k rest

/-- Association-list insert/replace, modelling Go map write `m[k] = v`. -/
def upsert {β : Type} (k : String) (v : β) : List (String × β) → List (String × β)
  | [] => [(k, v)]
  | (k2, v2) :: rest => if k = k2 then (k, v) :: rest else (k2, v2) :: upsert k v rest

/-- Association-list delete, modelling Go `delete(m, k)`. -/
def eraseKey {β : Type} (k : String) : List (String × β) → List (String × β)
  | [] => []
  | (k2, v2) :: rest => if k = k2 then rest else (k2, v2) :: eraseKey k rest

/-- `UpdateObject` writes or updates the metadata for `obj`.  Mirrors the Go
body: empty key is a no-op; the payload length becomes `size` and the payload
is stripped; on an existing key the code adds `o.Size - idx.Objects[key].Size`
to `CacheSize`, where `o` aliases `idx.Objects[key]`, so the addend is the
stored entry's size minus itself; on a new key it adds `obj.Size` and
increments `ObjectCount`.  The final map write panics when the map is nil,
which is the `none` result. -/
def updateObject (now : Int) (obj : Object) (idx : Index) : Option Index :=
  if obj.key = "" then some idx
  else
    let obj1 : Object :=
      { obj with size := Int.ofNat obj.value.length, value := [],
                 lastAccess := now, lastWrite := now }
    match idx.objects with
    | none => none
    | some m =>
      match lookupKey obj.key m with
      | some o =>
        some { idx with cacheSize := idx.cacheSize + (o.size - o.size),
                        objects := some (upsert obj.key obj1 m) }
      | none =>
        some { idx with cacheSize := idx.cacheSize + obj1.size,
                        objectCount := idx.objectCount + 1,
                        objects := some (upsert obj.key obj1 m) }

/-- `RemoveObject` removes the entry for `key` when present, decrementing the
aggregate counters; absent key (and a nil map) is a no-op.  The Go `noLock`
flag only controls locking and is irrelevant to the state transition. -/
def removeObject (key : String) (idx : Index) : Index :=
  match idx.objects with
  | none => idx
  | some m =>
    match lookupKey key m with
    | some o =>
      { idx with cacheSize := idx.cacheSize - o.size,
                 objectCount := idx.objectCount - 1,
                 objects := some (eraseKey key m) }
    | none => idx

/-- The empty index produced by `NewIndex` with empty persisted bytes. -/
def emptyIndex : Index := ⟨0, 0, some []⟩

/-- One externally driven index mutation. -/
inductive Op where
  | update (now : Int) (obj : Object)
  | remove (key : String)
deriving DecidableEq, Repr

/-- Apply one mutation; `none` propagates a panic. -/
def applyOp (idx : Index) : Op → Option Index
  | .update now obj => updateObject now obj idx
  | .remove key => some (removeObject key idx)

/-- Apply a sequence of mutations to the initially empty index. -/
def applyOps (ops : List Op) : Option Index :=
  ops.foldl (fun acc op => acc.bind (fun idx => applyOp idx op)) (some emptyIndex)

/-- Sum of the `size` fields of the entries of an association list. -/
def entrySizeSum (m : List (String × Object)) : Int :=
  (m.map (fun p => p.2.size)).sum

/-- The retention fields of Go `config.CacheIndexConfig` read by `reap`. -/
structure CacheIndexConfig where
  maxSizeBytes : Int
  maxSizeBackoffBytes : Int
  maxSizeObjects : Int
  maxSizeBackoffObjects : Int
deriving DecidableEq, Repr

/-- The single pass of `reap` over `idx.Objects`: entries whose `Key` equals
`IndexKey` are skipped, expired entries (`Expiration.Before(now)`) contribute
their key to `removals`, the rest go to `remainders`. -/
def partitionEntries (now : Int) : List (String × Object) → List String × List Object
  | [] => ([], [])
  | (_, o) :: rest =>
    let pr := partitionEntries now rest
    if o.key = IndexKey then pr
    else if o.expiration < now then (o.key :: pr.1, pr.2)
    else (pr.1, o :: pr.2)

/-- Ascending `LastAccess` ordering used by `sort.Sort(remainders)`
(the `obectsAtime` `Less` method compares `LastAccess` with `Before`). -/
def atimeLe (a b : Object) : Prop := a.lastAccess ≤ b.lastAccess

instance : DecidableRel atimeLe := fun a b =>
  inferInstanceAs (Decidable (a.lastAccess ≤ b.lastAccess))

instance : IsTotal Object atimeLe := ⟨fun a b => le_total a.lastAccess b.lastAccess⟩

instance : IsTrans Object atimeLe := ⟨fun _ _ _ h1 h2 => le_trans h1 h2⟩

/-- Sorting of the remainders ascending by `LastAccess`.  Go's `sort.Sort` is
an unspecified comparison sort; any sort agreeing with `atimeLe` models it. -/
def sortByAtime (l : List Object) : List Object :=
  l.insertionSort atimeLe

/-- The byte-quota selection loop of `reap`: starting with `bytesSelected = 0`,
append keys of the sorted remainders while `bytesSelected < bytesNeeded` and
entries remain, adding each selected entry's `Size`. -/
def selectByBytes (needed : Int) : List Object → List String
  | [] => []
  | o :: rest => if 0 < needed then o.key :: selectByBytes (needed - o.size) rest else []

/-- The object-quota selection loop of `reap`: append keys while
`objectsSelected < objectsNeeded` and entries remain, counting one per entry. -/
def selectByCount (needed : Int) : List Object → List String
  | [] => []
  | o :: rest => if 0 < needed then o.key :: selectByCount (needed - 1) rest else []

/-- Observable outcome of one `reap` cycle: the resulting index, the key list
handed to `bulkRemoveFunc` in the expiry phase (empty when the callback was
not invoked), the `evictionType` chosen, and the key list handed to
`bulkRemoveFunc` in the eviction phase. -/
structure ReapResult where
  idx : Index
  expiredRemovals : List String
  evictionType : Option String
  evictionRemovals : List String
deriving DecidableEq, Repr

/-- One `reap` cycle.  `bulkRemove` is the injected `bulkRemoveFunc`, which in
Go may mutate the index (via `RemoveObject(key, true)`); its result is the
index state after the callback returns.  Mirrors the Go body: partition, call
the callback on the expired keys when non-empty, re-check the limits against
the (possibly updated) counters, choose `evictionType` (`CacheSize >
MaxSizeBytes` first, without re-checking `MaxSizeBytes > 0`), sort the
remainders, compute the quota with backoff, select, and call the callback on
the selected keys when non-empty. -/
def reap (bulkRemove : Index → List String → Index) (cfg : CacheIndexConfig)
    (now : Int) (idx : Index) : ReapResult :=
  let pr := partitionEntries now (idx.objects.getD [])
  let removals := pr.1
  let remainders := pr.2
  let idx1 := if removals.isEmpty then idx else bulkRemove idx removals
  if ((cfg.maxSizeBytes > 0 ∧ idx1.cacheSize > cfg.maxSizeBytes) ∨
      (cfg.maxSizeObjects > 0 ∧ idx1.objectCount > cfg.maxSizeObjects)) ∧
      remainders ≠ [] then
    let sorted := sortByAtime remainders
    if idx1.cacheSize > cfg.maxSizeBytes then
      let bytesNeeded := (idx1.cacheSize - cfg.maxSizeBytes) +
        (if cfg.maxSizeBytes > cfg.maxSizeBackoffBytes then cfg.maxSizeBackoffBytes else 0)
      let removals2 := selectByBytes bytesNeeded sorted
      let idx2 := if removals2.isEmpty then idx1 else bulkRemove idx1 removals2
      ⟨idx2, removals, some "size_bytes", removals2⟩
    else if idx1.objectCount > cfg.maxSizeObjects then
      let objectsNeeded := (idx1.objectCount - cfg.maxSizeObjects) +
        (if cfg.maxSizeObjects > cfg.maxSizeBackoffObjects then cfg.maxSizeBackoffObjects else 0)
      let removals2 := selectByCount objectsNeeded sorted
      let idx2 := if removals2.isEmpty then idx1 else bulkRemove idx1 removals2
      ⟨idx2, removals, some "size_objects", removals2⟩
    else
      ⟨idx1, removals, none, []⟩
  else
    ⟨idx1, removals, none, []⟩

/-! ### Serialization

`ToBytes`/`IndexFromBytes` delegate to `MarshalMsg`/`UnmarshalMsg`, which are
generated by `msgp` (`//go:generate msgp`) and are not part of the repository
sources.  They are modelled from the spec as an injective wire encoding of the
three persisted fields with a matching decoder that can fail. -/

/-- One wire token of the modelled msgp encoding. -/
inductive Tok where
  | tint (z : Int)
  | tstr (s : String)
deriving DecidableEq, Repr

/-- Encode a payload byte slice: length, then one token per byte. -/
def encVal (v : List Nat) : List Tok :=
  Tok.tint (Int.ofNat v.length) :: v.map (fun b => Tok.tint (Int.ofNat b))

/-- Encode an `Object`'s serialized fields in declaration order. -/
def encObject (o : Object) : List Tok :=
  Tok.tstr o.key :: Tok.tint o.expiration :: Tok.tint o.lastWrite ::
    Tok.tint o.lastAccess :: Tok.tint o.size :: encVal o.value

/-- Encode one map entry: the map key, then the object. -/
def encEntry (p : String × Object) : List Tok :=
  Tok.tstr p.1 :: encObject p.2

/-- Encode the `Objects` map; a nil map is a negative length header. -/
def encObjects : Option (List (String × Object)) → List Tok
  | none => [Tok.tint (-1)]
  | some m => Tok.tint (Int.ofNat m.length) :: (m.map encEntry).flatten

/-- `Modelled from the spec:` `ToBytes` returns the `MarshalMsg` serialization
of the Index (`CacheSize`, `ObjectCount`, `Objects`); the msgp-generated
marshaller is not in the sources. -/
def toBytes (idx : Index) : List Tok :=
  Tok.tint idx.cacheSize :: Tok.tint idx.objectCount :: encObjects idx.objects

/-- Decode one integer token. -/
def decInt : List Tok → Except Unit (Int × List Tok)
  | Tok.tint z :: rest => .ok (z, rest)
  | _ => .error ()

/-- Decode one string token. -/
def decStr : List Tok → Except Unit (String × List Tok)
  | Tok.tstr s :: rest => .ok (s, rest)
  | _ => .error ()

/-- Decode `n` integer tokens. -/
def decInts : Nat → List Tok → Except Unit (List Int × List Tok)
  | 0, ts => .ok ([], ts)
  | n + 1, ts =>
    match decInt ts with
    | .error e => .error e
    | .ok (z, ts1) =>
      match decInts n ts1 with
      | .error e => .error e
      | .ok (zs, ts2) => .ok (z :: zs, ts2)

/-- Decode a payload byte slice. -/
def decVal (ts : List Tok) : Except Unit (List Nat × List Tok) :=
  match decInt ts with
  | .error e => .error e
  | .ok (n, ts1) =>
    if n < 0 then .error ()
    else
      match decInts n.toNat ts1 with
      | .error e => .error e
      | .ok (zs, ts2) => .ok (zs.map Int.toNat, ts2)

/-- Decode an `Object`. -/
def decObject (ts : List Tok) : Except Unit (Object × List Tok) :=
  match decStr ts with
  | .error e => .error e
  | .ok (k, ts1) =>
    match decInt ts1 with
    | .error e => .error e
    | .ok (exp, ts2) =>
      match decInt ts2 with
      | .error e => .error e
      | .ok (lw, ts3) =>
        match decInt ts3 with
        | .error e => .error e
        | .ok (la, ts4) =>
          match decInt ts4 with
          | .error e => .error e
          | .ok (sz, ts5) =>
            match decVal ts5 with
            | .error e => .error e
            | .ok (v, ts6) => .ok (⟨k, exp, lw, la, sz, v⟩, ts6)

/-- Decode `n` map entries. -/
def decEntries : Nat → List Tok → Except Unit (List (String × Object) × List Tok)
  | 0, ts => .ok ([], ts)
  | n + 1, ts =>
    match decStr ts with
    | .error e => .error e
    | .ok (k, ts1) =>
      match decObject ts1 with
      | .error e => .error e
      | .ok (o, ts2) =>
        match decEntries n ts2 with
        | .error e => .error e
        | .ok (l, ts3) => .ok ((k, o) :: l, ts3)

/-- Decode the `Objects` map. -/
def decObjects (ts : List Tok) : Except Unit (Option (List (String × Object)) × List Tok) :=
  match decInt ts with
  | .error e => .error e
  | .ok (n, ts1) =>
    if n < 0 then .ok (none, ts1)
    else
      match decEntries n.toNat ts1 with
      | .error e => .error e
      | .ok (m, ts2) => .ok (some m, ts2)

/-- Decode an `Index`, returning the remaining tokens as `UnmarshalMsg` does. -/
def decIndex (ts : List Tok) : Except Unit (Index × List Tok) :=
  match decInt ts with
  | .error e => .error e
  | .ok (cs, ts1) =>
    match decInt ts1 with
    | .error e => .error e
    | .ok (oc, ts2) =>
      match decObjects ts2 with
      | .error e => .error e
      | .ok (objs, ts3) => .ok (⟨cs, oc, objs⟩, ts3)

/-- `Modelled from the spec:` `IndexFromBytes` runs `UnmarshalMsg` on a fresh
`Index{}` and returns it with the error, ignoring leftover bytes. -/
def indexFromBytes (ts : List Tok) : Except Unit Index :=
  match decIndex ts with
  | .error e => .error e
  | .ok (i, _) => .ok i

/-- `NewIndex` restricted to its state construction (the background loops and
the runtime fields do not affect the persisted state).  With non-empty
`indexData` the Go code runs `i.UnmarshalMsg(indexData)` and DISCARDS both
return values, so a decode failure leaves the zero-value `Index{}` whose
`Objects` map is nil; with empty data it allocates an empty map.  The
msgp-generated decoder is modelled (from the spec) as atomic: on failure no
field of the fresh `Index{}` has been assigned. -/
def newIndex (indexData : List Tok) : Index :=
  if indexData.length > 0 then
    match decIndex indexData with
    | .ok (i, _) => i
    | .error _ => ⟨0, 0, none⟩
  else
    ⟨0, 0, some []⟩

/-- `Modelled from the spec:` the constructor the spec describes, which
surfaces a deserialization failure to the caller as an explicit error instead
of discarding it. -/
def newIndexSpec (indexData : List Tok) : Except Unit Index :=
  if indexData.length > 0 then
    match decIndex indexData with
    | .ok (i, _) => .ok i
    | .error e => .error e
  else
    .ok ⟨0, 0, some []⟩

/-! ### Named lock manager (`pkg/locks/locks.go`)

The package-level state is the registry `locks : map[string]*sync.Mutex` plus
the pool of allocated mutexes.  Mutex identity is modelled by a `Nat` id with
a fresh-id allocator (`&sync.Mutex{}` allocates a new, unlocked mutex), and
the set of currently locked mutexes by a list of ids.  `Acquire` performs
three atomic sections separated by `mapLock` releases: the lookup-or-create
section, the blocking `l.Lock()`, and the registration section; each is a
separate function so that concurrent interleavings can be expressed. -/

structure LockTable where
  locks : List (String × Nat)
  held : List Nat
  nextId : Nat
deriving DecidableEq, Repr

/-- The initial package state: empty registry, nothing locked. -/
def emptyTable : LockTable := ⟨[], [], 0⟩

/-- First atomic section of `Acquire` (under `mapLock`): look up the lock for
`name`; if absent, allocate a fresh unlocked mutex.  Nothing is registered
yet. -/
def acquireLookup (name : String) (t : LockTable) : Nat × LockTable :=
  match lookupKey name t.locks with
  | some mid => (mid, t)
  | none => (t.nextId, { t with nextId := t.nextId + 1 })

/-- The blocking `l.Lock()` in `Acquire`: succeeds only when the mutex is not
held (`none` means the calling path blocks at this point). -/
def mutexLock (mid : Nat) (t : LockTable) : Option LockTable :=
  if mid ∈ t.held then none else some { t with held := mid :: t.held }

/-- Third atomic section of `Acquire` (under `mapLock`): register the
now-locked mutex under `name`, overwriting any existing registration. -/
def acquireRegister (name : String) (mid : Nat) (t : LockTable) : LockTable :=
  { t with locks := upsert name mid t.locks }

/-- `Release(name)`: under `mapLock`, if a lock is registered under `name`,
delete the registry entry and unlock it; otherwise do nothing. -/
def release (name : String) (t : LockTable) : LockTable :=
  match lookupKey name t.locks with
  | some mid => { t with locks := eraseKey name t.locks, held := t.held.erase mid }
  | none => t

/-- The interleaving of two concurrent `Acquire "k"` callers A and B in which
both lookups run before either `l.Lock()`: A looks up (creates mutex 0), B
looks up (mutex 0 is not yet registered, so B creates mutex 1), A locks its
mutex, B locks its mutex, A registers, B registers (overwriting A's entry).
The result carries A's mutex id, B's mutex id, and the final state; `none`
would mean some `l.Lock()` blocked. -/
def racedDoubleAcquire : Option (Nat × Nat × LockTable) :=
  let pa := acquireLookup "k" emptyTable
  let pb := acquireLookup "k" pa.2
  match mutexLock pa.1 pb.2 with
  | none => none
  | some t3 =>
    match mutexLock pb.1 t3 with
    | none => none
    | some t4 =>
      some (pa.1, pb.1, acquireRegister "k" pb.1 (acquireRegister "k" pa.1 t4))

/-! ### Auxiliary predicates and concrete scenario inputs -/

/-- Sum of the `size` fields of a list of objects. -/
def objSizeSum (l : List Object) : Int :=
  (l.map Object.size).sum

/-- Every entry of the map stores an object whose `Key` field equals its map
key.  `UpdateObject` establishes this (it stores under `obj.Key`) and every
reachable state satisfies it. -/
def entryKeysMatch (m : List (String × Object)) : Prop :=
  ∀ p ∈ m, p.2.key = p.1

instance (m : List (String × Object)) : Decidable (entryKeysMatch m) :=
  inferInstanceAs (Decidable (∀ p ∈ m, p.2.key = p.1))

/-- A bulk-removal callback that performs no index mutation. -/
def noopRemove : Index → List String → Index := fun idx _ => idx

/-- C1 failing input: write a 1-byte payload under `"a"`, then overwrite it
with a 2-byte payload. -/
def c1ops : List Op :=
  [Op.update 0 ⟨"a", 10, 0, 0, 0, [7]⟩, Op.update 1 ⟨"a", 10, 0, 0, 0, [7, 7]⟩]

/-- The index state the code produces from `c1ops`. -/
def c1result : Index := ⟨1, 1, some [("a", ⟨"a", 10, 1, 1, 2, []⟩)]⟩

/-- C2 failing input: an index holding a size-1 entry under `"a"`. -/
def c2idx : Index := ⟨1, 1, some [("a", ⟨"a", 10, 0, 0, 1, []⟩)]⟩

/-- C2 failing input: an update of `"a"` carrying a 5-byte payload. -/
def c2obj : Object := ⟨"a", 10, 0, 0, 0, [9, 9, 9, 9, 9]⟩

/-- C3 scenario: five live entries of size 30 in LRU order E1..E5. -/
def c3remainders : List Object :=
  [⟨"E1", 100, 0, 1, 30, []⟩, ⟨"E2", 100, 0, 2, 30, []⟩,
   ⟨"E3", 100, 0, 3, 30, []⟩, ⟨"E4", 100, 0, 4, 30, []⟩,
   ⟨"E5", 100, 0, 5, 30, []⟩]

/-- C3 scenario: the index holding `c3remainders`, `CacheSize = 150`. -/
def c3idx : Index :=
  ⟨150, 5, some (c3remainders.map (fun o => (o.key, o)))⟩

/-- C3 scenario configuration: `MaxSizeBytes = 100`,
`MaxSizeBackoffBytes = 20`, count-based limits disabled. -/
def c3cfg : CacheIndexConfig := ⟨100, 20, 0, 0⟩

/-- C4 witness index: an expired entry, a live entry, and an expired entry
stored under the reserved persistence key. -/
def c4idx : Index :=
  ⟨3, 3, some [("A", ⟨"A", 5, 0, 1, 1, []⟩),
               ("B", ⟨"B", 99, 0, 2, 1, []⟩),
               (IndexKey, ⟨IndexKey, 5, 0, 3, 1, []⟩)]⟩

/-- C5 failing configuration: `MaxSizeBytes = 0` (byte eviction disabled),
`MaxSizeObjects = 2`. -/
def c5cfg : CacheIndexConfig := ⟨0, 0, 2, 0⟩

/-- C5 failing input: three live size-1 entries, `ObjectCount = 3 > 2`. -/
def c5idx : Index :=
  ⟨3, 3, some [("a", ⟨"a", 100, 0, 1, 1, []⟩),
               ("b", ⟨"b", 100, 0, 2, 1, []⟩),
               ("c", ⟨"c", 100, 0, 3, 1, []⟩)]⟩

/-- C6/C10 failing input: non-empty persisted bytes that fail to decode
(the first token is not the integer `CacheSize` header). -/
def badTok : List Tok := [Tok.tstr "x"]

/-- C10 witness object: a non-empty key with an empty payload. -/
def c10obj : Object := ⟨"a", 0, 0, 0, 0, []⟩

/-- C8 witness registry: two registered locks, both locked. -/
def c8table : LockTable := ⟨[("k", 0), ("j", 1)], [0, 1], 2⟩

end Trickster

namespace Trickster

/-- C1: the claim states that after any sequence of `UpdateObject` /
`RemoveObject` calls on an initially empty index, `CacheSize` equals the sum
of the stored `Size` fields and `ObjectCount` the number of entries.  The
code violates the `CacheSize` half: overwriting key `"a"` (payload 1 byte,
then 2 bytes) leaves `CacheSize = 1` while the stored sizes sum to 2, because
`UpdateObject` adds `o.Size - idx.Objects[key].Size` (identically zero) on an
existing key.  The `ObjectCount` half does hold on this input. -/
theorem updateObject_breaks_cacheSize_invariant :
    applyOps c1ops = some c1result ∧
    c1result.cacheSize ≠ entrySizeSum (c1result.objects.getD []) ∧
    c1result.objectCount = ((c1result.objects.getD []).length : Int) := by
  decide

/-- C2: the claim states that `UpdateObject` on an existing key changes
`CacheSize` by exactly `newSize - oldSize`.  On an index holding a size-1
entry under `"a"`, updating `"a"` with a 5-byte payload leaves `CacheSize`
unchanged (delta 0), not `5 - 1 = 4`; `ObjectCount` is indeed unchanged. -/
theorem updateObject_existing_key_size_delta_zero :
    updateObject 5 c2obj c2idx = some ⟨1, 1, some [("a", ⟨"a", 10, 5, 5, 5, []⟩)]⟩ ∧
    (1 : Int) - c2idx.cacheSize = 0 ∧
    Int.ofNat c2obj.value.length - 1 = 4 ∧
    ((1 : Int) - c2idx.cacheSize ≠ Int.ofNat c2obj.value.length - 1) := by
  decide

/-- C5: the claim states that `MaxSizeBytes ≤ 0` disables byte-based
eviction, so eviction under count-based pressure alone uses the count quota.
With `MaxSizeBytes = 0`, `MaxSizeObjects = 2` and three live size-1 entries,
the outer limit check passes only through the count clause, yet the
`evictionType` branch re-checks only `CacheSize > MaxSizeBytes` (3 > 0)
without the `MaxSizeBytes > 0` guard, so the code runs byte-based eviction
and removes all three entries; the count quota would have selected exactly
one. -/
theorem reap_byte_eviction_not_disabled :
    (reap noopRemove c5cfg 0 c5idx).evictionType = some "size_bytes" ∧
    (reap noopRemove c5cfg 0 c5idx).evictionRemovals = ["a", "b", "c"] ∧
    selectByCount ((c5idx.objectCount - c5cfg.maxSizeObjects) +
      (if c5cfg.maxSizeObjects > c5cfg.maxSizeBackoffObjects then
        c5cfg.maxSizeBackoffObjects else 0))
      (sortByAtime [⟨"a", 100, 0, 1, 1, []⟩, ⟨"b", 100, 0, 2, 1, []⟩,
                    ⟨"c", 100, 0, 3, 1, []⟩]) = ["a"] := by
  decide

/-- C9: the claim states that for the same name at most one caller holds the
lock at a time, a second concurrent `Acquire` blocking until release.  In the
interleaving where both callers run the lookup-or-create section before
either blocks on `l.Lock()`, each caller allocates its own fresh mutex for
`"k"` (ids 0 and 1), both `l.Lock()` calls succeed, and both registrations
complete: both callers simultaneously hold their `Acquire("k")` lock (held
set `[1, 0]`), with B's mutex registered last. -/
theorem acquire_race_two_holders :
    racedDoubleAcquire = some (0, 1, ⟨[("k", 1)], [1, 0], 2⟩) := by
  decide

/-- Shared helper: with non-empty persisted bytes that fail to decode,
`NewIndex` ignores the error and returns the zero-value `Index` whose
`Objects` map is nil. -/
theorem newIndex_of_decode_error (data : List Tok) (e : Unit)
    (hne : data ≠ []) (herr : decIndex data = .error e) :
    newIndex data = ⟨0, 0, none⟩ := by
  have hlen : data.length > 0 := List.length_pos.mpr hne
  unfold newIndex
  rw [if_pos hlen, herr]

/-- C6 counterexample: on the concrete non-empty input `badTok`,
deserialization fails (and the spec-modelled constructor reports `.error`),
yet the code's `NewIndex` returns a plain `Index` — the zero value with a nil
`Objects` map — so the failure is silently discarded, not returned. -/
theorem newIndex_swallows_decode_error_cx :
    decIndex badTok = .error () ∧
    newIndexSpec badTok = .error () ∧
    newIndex badTok = ⟨0, 0, none⟩ := by
  exact ⟨rfl, rfl, rfl⟩

/-- C6 amended: when non-empty persisted index bytes fail to deserialize,
`NewIndex` silently discards the failure and returns the zero-value `Index`
(with a nil `Objects` map); only the spec-modelled constructor surfaces the
error. -/
theorem newIndex_decode_error_amended (data : List Tok) (e : Unit)
    (hne : data ≠ []) (herr : decIndex data = .error e) :
    newIndex data = ⟨0, 0, none⟩ ∧ newIndexSpec data = .error e := by
  refine ⟨newIndex_of_decode_error data e hne herr, ?_⟩
  have hlen : data.length > 0 := List.length_pos.mpr hne
  unfold newIndexSpec
  rw [if_pos hlen, herr]

/-- Witness for the amended C6 theorem at the concrete input `badTok`. -/
theorem newIndex_decode_error_amended_witness :
    newIndex badTok = ⟨0, 0, none⟩ ∧ newIndexSpec badTok = .error () :=
  newIndex_decode_error_amended badTok () (by decide) rfl

/-- C10: constructing an index from non-empty bytes that fail to decode
leaves `Objects` nil, and a subsequent `UpdateObject` with a non-empty key
panics (the assignment into the nil map), modelled as the `none` result. -/
theorem updateObject_after_failed_decode_panics (data : List Tok) (e : Unit)
    (obj : Object) (now : Int)
    (hne : data ≠ []) (herr : decIndex data = .error e) (hkey : obj.key ≠ "") :
    (newIndex data).objects = none ∧
    updateObject now obj (newIndex data) = none := by
  have h := newIndex_of_decode_error data e hne herr
  rw [h]
  exact ⟨rfl, by simp [updateObject, hkey]⟩

/-- Witness for the C10 theorem at `badTok` and a non-empty key. -/
theorem updateObject_after_failed_decode_panics_witness :
    (newIndex badTok).objects = none ∧
    updateObject 0 c10obj (newIndex badTok) = none :=
  updateObject_after_failed_decode_panics badTok () c10obj 0
    (by decide) rfl (by decide)

end Trickster

namespace Trickster

/-- The byte-quota selection returns the keys of an initial segment of its
input. -/
theorem selectByBytes_eq_take (needed : Int) (rs : List Object) :
    selectByBytes needed rs =
      (rs.take (selectByBytes needed rs).length).map Object.key := by
  induction rs generalizing needed with
  | nil => rfl
  | cons o rest ih =>
    by_cases h : 0 < needed
    · simp only [selectByBytes, if_pos h, List.length_cons, List.take_succ_cons,
        List.map_cons]
      exact congrArg (o.key :: ·) (ih (needed - o.size))
    · simp [selectByBytes, if_neg h]

/-- The selected initial segment accumulates at least the requested bytes,
unless the whole input was consumed. -/
theorem selectByBytes_reaches (needed : Int) (rs : List Object) :
    needed ≤ objSizeSum (rs.take (selectByBytes needed rs).length) ∨
      (selectByBytes needed rs).length = rs.length := by
  induction rs generalizing needed with
  | nil => right; rfl
  | cons o rest ih =>
    by_cases h : 0 < needed
    · simp only [selectByBytes, if_pos h, List.length_cons, List.take_succ_cons]
      rcases ih (needed - o.size) with hle | hlen
      · left
        simp only [objSizeSum, List.map_cons, List.sum_cons] at hle ⊢
        linarith
      · right
        simp [hlen]
    · left
      have h0 : needed ≤ 0 := le_of_not_lt h
      simp only [selectByBytes, if_neg h, List.length_nil, List.take_zero]
      simpa [objSizeSum] using h0

/-- Minimality: every strictly shorter initial segment accumulates strictly
fewer bytes than requested. -/
theorem selectByBytes_minimal (needed : Int) (rs : List Object) :
    ∀ m, m < (selectByBytes needed rs).length →
      objSizeSum (rs.take m) < needed := by
  induction rs generalizing needed with
  | nil => intro m hm; simp [selectByBytes] at hm
  | cons o rest ih =>
    intro m hm
    by_cases h : 0 < needed
    · simp only [selectByBytes, if_pos h, List.length_cons] at hm
      cases m with
      | zero => simpa [objSizeSum] using h
      | succ m' =>
        have hm' : m' < (selectByBytes (needed - o.size) rest).length :=
          Nat.lt_of_succ_lt_succ hm
        have := ih (needed - o.size) m' hm'
        simp only [List.take_succ_cons, objSizeSum, List.map_cons,
          List.sum_cons] at this ⊢
        linarith
    · simp [selectByBytes, if_neg h] at hm

/-- Every key selected by the byte quota is the key of an input entry. -/
theorem mem_selectByBytes (needed : Int) (rs : List Object) :
    ∀ s ∈ selectByBytes needed rs, s ∈ rs.map Object.key := by
  induction rs generalizing needed with
  | nil => intro s hs; simp [selectByBytes] at hs
  | cons o rest ih =>
    intro s hs
    by_cases h : 0 < needed
    · simp only [selectByBytes, if_pos h, List.mem_cons] at hs
      rcases hs with rfl | hs
      · simp
      · simp [ih (needed - o.size) s hs]
    · simp [selectByBytes, if_neg h] at hs

/-- Every key selected by the count quota is the key of an input entry. -/
theorem mem_selectByCount (needed : Int) (rs : List Object) :
    ∀ s ∈ selectByCount needed rs, s ∈ rs.map Object.key := by
  induction rs generalizing needed with
  | nil => intro s hs; simp [selectByCount] at hs
  | cons o rest ih =>
    intro s hs
    by_cases h : 0 < needed
    · simp only [selectByCount, if_pos h, List.mem_cons] at hs
      rcases hs with rfl | hs
      · simp
      · simp [ih (needed - 1) s hs]
    · simp [selectByCount, if_neg h] at hs

end Trickster

namespace Trickster

/-- The expiry-phase key list of a `reap` cycle is the first component of the
partition pass, in every branch of the cycle. -/
theorem reap_expiredRemovals (f : Index → List String → Index)
    (cfg : CacheIndexConfig) (now : Int) (idx : Index) :
    (reap f cfg now idx).expiredRemovals =
      (partitionEntries now (idx.objects.getD [])).1 := by
  simp only [reap]
  split_ifs <;> rfl

/-- Every key the eviction phase hands to the callback is the key of some
remainder entry. -/
theorem mem_reap_evictionRemovals (f : Index → List String → Index)
    (cfg : CacheIndexConfig) (now : Int) (idx : Index) :
    ∀ s ∈ (reap f cfg now idx).evictionRemovals,
      s ∈ ((partitionEntries now (idx.objects.getD [])).2).map Object.key := by
  have hperm : ((sortByAtime (partitionEntries now (idx.objects.getD [])).2).map
      Object.key).Perm
      (((partitionEntries now (idx.objects.getD [])).2).map Object.key) :=
    (List.perm_insertionSort atimeLe _).map Object.key
  intro s hs
  simp only [reap] at hs
  split_ifs at hs
  all_goals
    first
      | exact hperm.mem_iff.mp (mem_selectByBytes _ _ s hs)
      | exact hperm.mem_iff.mp (mem_selectByCount _ _ s hs)
      | simp at hs

/-- The expired keys are exactly the keys of the non-reserved entries whose
expiration is strictly before `now` (stated on the objects' `Key` fields). -/
theorem partitionEntries_fst (now : Int) (m : List (String × Object)) :
    (partitionEntries now m).1 =
      (m.filter (fun p => decide (p.2.key ≠ IndexKey ∧ p.2.expiration < now))).map
        (fun p => p.2.key) := by
  induction m with
  | nil => rfl
  | cons p rest ih =>
    by_cases h1 : p.2.key = IndexKey
    · simp [partitionEntries, List.filter_cons, h1, ih]
    · by_cases h2 : p.2.expiration < now
      · simp [partitionEntries, List.filter_cons, h1, h2, ih]
      · simp [partitionEntries, List.filter_cons, h1, h2, ih]

/-- Every remainder entry survived the reserved-key and expiry tests. -/
theorem mem_partitionEntries_snd (now : Int) (m : List (String × Object)) :
    ∀ o ∈ (partitionEntries now m).2, o.key ≠ IndexKey ∧ ¬o.expiration < now := by
  induction m with
  | nil => intro o ho; simp [partitionEntries] at ho
  | cons p rest ih =>
    intro o ho
    by_cases h1 : p.2.key = IndexKey
    · simp only [partitionEntries, if_pos h1] at ho
      exact ih o ho
    · by_cases h2 : p.2.expiration < now
      · simp only [partitionEntries, if_pos h1, if_neg h1, if_pos h2] at ho
        exact ih o ho
      · simp only [partitionEntries, if_neg h1, if_neg h2, List.mem_cons] at ho
        rcases ho with rfl | ho
        · exact ⟨h1, h2⟩
        · exact ih o ho

end Trickster

namespace Trickster

/-- C3: under size-based pressure the eviction quota is
`bytesNeeded = CacheSize - MaxSizeBytes` plus `MaxSizeBackoffBytes` when
`MaxSizeBytes > MaxSizeBackoffBytes` (the formula embedded in `reap`), and
the selected entries are exactly the shortest initial segment of the
remainders sorted ascending by `LastAccess` whose accumulated `Size` reaches
`bytesNeeded`, or all of them if the list runs out: `sortByAtime` sorts by
`LastAccess` and permutes nothing away, `selectByBytes` returns the keys of
an initial segment that reaches the quota (or everything) while every
strictly shorter segment stays below it, and on the concrete scenario with
`MaxSizeBytes = 100`, `MaxSizeBackoffBytes = 20` and five size-30 entries
totalling 150, exactly the three least-recently-accessed entries E1, E2, E3
are selected. -/
theorem reap_size_eviction_selects_lru_quota :
    (∀ rs : List Object,
      (sortByAtime rs).Sorted atimeLe ∧ (sortByAtime rs).Perm rs) ∧
    (∀ (needed : Int) (rs : List Object),
      selectByBytes needed rs =
        (rs.take (selectByBytes needed rs).length).map Object.key ∧
      (needed ≤ objSizeSum (rs.take (selectByBytes needed rs).length) ∨
        (selectByBytes needed rs).length = rs.length) ∧
      (∀ m, m < (selectByBytes needed rs).length →
        objSizeSum (rs.take m) < needed)) ∧
    (reap noopRemove c3cfg 0 c3idx).evictionType = some "size_bytes" ∧
    (reap noopRemove c3cfg 0 c3idx).evictionRemovals = ["E1", "E2", "E3"] := by
  refine ⟨fun rs => ⟨List.sorted_insertionSort atimeLe rs,
      List.perm_insertionSort atimeLe rs⟩,
    fun needed rs => ⟨selectByBytes_eq_take needed rs,
      selectByBytes_reaches needed rs, selectByBytes_minimal needed rs⟩,
    by decide, by decide⟩

/-- Witness for C3: instantiating the minimality clause at the scenario's
sorted remainders with quota 70 shows the two least-recently-accessed
entries alone accumulate fewer than 70 bytes. -/
theorem reap_size_eviction_selects_lru_quota_witness :
    objSizeSum (List.take 2 (sortByAtime c3remainders)) < 70 :=
  (reap_size_eviction_selects_lru_quota.2.1 70 (sortByAtime c3remainders)).2.2
    2 (by decide)

/-- C4: a `reap` cycle hands the bulk-removal callback, in its expiry phase,
exactly the keys of the non-reserved entries whose expiration is strictly
before the reap timestamp, and the reserved persistence key is selected
neither there nor by the LRU eviction phase (for any callback, configuration
and timestamp, on any index whose entries are stored under their own key). -/
theorem reap_expiry_exact_and_reserved_key_safe
    (f : Index → List String → Index) (cfg : CacheIndexConfig)
    (now : Int) (idx : Index)
    (hwf : entryKeysMatch (idx.objects.getD [])) :
    (reap f cfg now idx).expiredRemovals =
      ((idx.objects.getD []).filter
        (fun p => decide (p.1 ≠ IndexKey ∧ p.2.expiration < now))).map
          Prod.fst ∧
    IndexKey ∉ (reap f cfg now idx).expiredRemovals ∧
    IndexKey ∉ (reap f cfg now idx).evictionRemovals := by
  have hfst := partitionEntries_fst now (idx.objects.getD [])
  have hfilter :
      (idx.objects.getD []).filter
          (fun p => decide (p.2.key ≠ IndexKey ∧ p.2.expiration < now)) =
        (idx.objects.getD []).filter
          (fun p => decide (p.1 ≠ IndexKey ∧ p.2.expiration < now)) := by
    apply List.filter_congr
    intro p hp
    rw [hwf p hp]
  refine ⟨?_, ?_, ?_⟩
  · rw [reap_expiredRemovals, hfst, hfilter]
    apply List.map_congr_left
    intro p hp
    exact hwf p (List.mem_filter.mp hp).1
  · rw [reap_expiredRemovals, hfst]
    intro hmem
    rcases List.mem_map.mp hmem with ⟨p, hp, hkey⟩
    have := (List.mem_filter.mp hp).2
    rw [hkey] at this
    simp at this
  · intro hmem
    have hk := mem_reap_evictionRemovals f cfg now idx IndexKey hmem
    rcases List.mem_map.mp hk with ⟨o, ho, hkey⟩
    exact (mem_partitionEntries_snd now (idx.objects.getD []) o ho).1 hkey

/-- Witness for C4 at a concrete index holding an expired entry `A`, a live
entry `B` and an expired entry under the reserved persistence key: only `A`
is passed to the expiry-phase callback. -/
theorem reap_expiry_exact_and_reserved_key_safe_witness :
    (reap noopRemove c3cfg 10 c4idx).expiredRemovals =
      ((c4idx.objects.getD []).filter
        (fun p => decide (p.1 ≠ IndexKey ∧ p.2.expiration < 10))).map
          Prod.fst ∧
    IndexKey ∉ (reap noopRemove c3cfg 10 c4idx).expiredRemovals ∧
    IndexKey ∉ (reap noopRemove c3cfg 10 c4idx).evictionRemovals :=
  reap_expiry_exact_and_reserved_key_safe noopRemove c3cfg 10 c4idx (by decide)

end Trickster

namespace Trickster

/-- Decoding the encoding of a run of integers consumes exactly the run. -/
theorem decInts_enc (zs : List Int) (rest : List Tok) :
    decInts zs.length (zs.map Tok.tint ++ rest) = .ok (zs, rest) := by
  induction zs with
  | nil => rfl
  | cons z zs ih => simp [decInts, decInt, ih]

/-- Decoding the encoding of a payload byte slice recovers it. -/
theorem decVal_enc (v : List Nat) (rest : List Tok) :
    decVal (encVal v ++ rest) = .ok (v, rest) := by
  have henc : encVal v ++ rest =
      Tok.tint (Int.ofNat v.length) :: ((v.map Int.ofNat).map Tok.tint ++ rest) := by
    simp [encVal, List.map_map, Function.comp]
  rw [henc]
  simp only [decVal, decInt, Int.ofNat_eq_natCast]
  rw [if_neg (by omega : ¬(v.length : Int) < 0)]
  have hlen : ((v.length : Int)).toNat = (v.map Int.ofNat).length := by
    simp
  rw [hlen, decInts_enc]
  simp only [List.map_map]
  exact congrArg (fun l => Except.ok (l, rest))
    ((List.map_congr_left (fun x _ => rfl)).trans (List.map_id v))

/-- Decoding the encoding of an `Object` recovers it. -/
theorem decObject_enc (o : Object) (rest : List Tok) :
    decObject (encObject o ++ rest) = .ok (o, rest) := by
  simp only [encObject, List.cons_append, decObject, decStr, decInt, decVal_enc]

/-- Decoding the encoding of a run of map entries recovers them. -/
theorem decEntries_enc (m : List (String × Object)) (rest : List Tok) :
    decEntries m.length ((m.map encEntry).flatten ++ rest) = .ok (m, rest) := by
  induction m with
  | nil => rfl
  | cons p ps ih =>
    simp only [List.map_cons, List.flatten_cons, List.length_cons, encEntry,
      List.cons_append, List.append_assoc, decEntries, decStr, decObject_enc, ih]

/-- Decoding the encoding of the `Objects` map recovers it, including the
nil/empty distinction. -/
theorem decObjects_enc (objs : Option (List (String × Object))) (rest : List Tok) :
    decObjects (encObjects objs ++ rest) = .ok (objs, rest) := by
  cases objs with
  | none => simp [encObjects, decObjects, decInt]
  | some m =>
    simp only [encObjects, List.cons_append, decObjects, decInt, Int.ofNat_eq_natCast]
    rw [if_neg (by omega : ¬(m.length : Int) < 0)]
    have hlen : ((m.length : Int)).toNat = m.length := Int.toNat_natCast m.length
    rw [hlen, decEntries_enc]

/-- Decoding a serialized `Index` recovers it with no tokens left over. -/
theorem decIndex_toBytes (idx : Index) : decIndex (toBytes idx) = .ok (idx, []) := by
  have henc : toBytes idx = Tok.tint idx.cacheSize ::
      Tok.tint idx.objectCount :: (encObjects idx.objects ++ []) := by
    simp [toBytes]
  rw [henc]
  simp only [decIndex, decInt, decObjects_enc]

/-- C7: round trip — deserializing the serialization of any `Index` yields an
index with identical `CacheSize`, `ObjectCount` and `Objects` content
(here: an identical `Index` value). -/
theorem indexFromBytes_toBytes_roundtrip (idx : Index) :
    indexFromBytes (toBytes idx) = .ok idx := by
  simp only [indexFromBytes, decIndex_toBytes]

end Trickster

namespace Trickster

/-- A key absent from the key column is not found by `lookupKey`. -/
theorem lookupKey_eq_none_of_not_mem {β : Type} (k : String)
    (m : List (String × β)) (h : k ∉ m.map Prod.fst) : lookupKey k m = none := by
  induction m with
  | nil => rfl
  | cons p ps ih =>
    simp only [List.map_cons, List.mem_cons, not_or] at h
    obtain ⟨k2, v⟩ := p
    simp only [lookupKey, if_neg h.1]
    exact ih h.2

/-- With no duplicate keys, deleting `k` leaves no entry for `k` behind. -/
theorem lookupKey_eraseKey_self {β : Type} (k : String) (m : List (String × β))
    (h : (m.map Prod.fst).Nodup) : lookupKey k (eraseKey k m) = none := by
  induction m with
  | nil => rfl
  | cons p ps ih =>
    obtain ⟨k2, v⟩ := p
    simp only [List.map_cons, List.nodup_cons] at h
    by_cases hk : k = k2
    · simp only [eraseKey, if_pos hk]
      subst hk
      exact lookupKey_eq_none_of_not_mem k ps h.1
    · simp only [eraseKey, if_neg hk, lookupKey, if_neg hk]
      exact ih h.2

/-- Deleting one key does not change the lookup of any other key. -/
theorem lookupKey_eraseKey_ne {β : Type} (k other : String) (hne : other ≠ k)
    (m : List (String × β)) : lookupKey other (eraseKey k m) = lookupKey other m := by
  induction m with
  | nil => rfl
  | cons p ps ih =>
    obtain ⟨k2, v⟩ := p
    by_cases hk : k = k2
    · subst hk
      simp [eraseKey, lookupKey, hne]
    · simp only [eraseKey, if_neg hk, lookupKey]
      by_cases ho : other = k2
      · simp [ho]
      · simp [ho, ih]

/-- In a duplicate-free list, erasing an element removes it entirely. -/
theorem not_mem_erase_self_of_nodup (a : Nat) (l : List Nat) (h : l.Nodup) :
    a ∉ l.erase a := by
  induction l with
  | nil => simp
  | cons x xs ih =>
    simp only [List.nodup_cons] at h
    by_cases hx : x = a
    · subst hx
      rw [List.erase_cons_head]
      exact h.1
    · rw [List.erase_cons_tail (by simpa using hx)]
      intro hmem
      rcases List.mem_cons.mp hmem with rfl | hmem
      · exact hx rfl
      · exact ih h.2 hmem

/-- C8: `Release` on a name with no registered lock is a silent no-op leaving
the registry (and every mutex) unchanged; on a registered name it deletes
exactly that registry entry — the name no longer resolves, other names
resolve as before — and unlocks the registered mutex (stated for registries
without duplicate names or duplicate held ids, which is what a Go map and a
set of mutexes are). -/
theorem release_semantics (name : String) (t : LockTable) :
    (lookupKey name t.locks = none → release name t = t) ∧
    (∀ mid, lookupKey name t.locks = some mid →
      (t.locks.map Prod.fst).Nodup → t.held.Nodup →
      (release name t).locks = eraseKey name t.locks ∧
      lookupKey name (release name t).locks = none ∧
      (∀ other, other ≠ name →
        lookupKey other (release name t).locks = lookupKey other t.locks) ∧
      mid ∉ (release name t).held) := by
  constructor
  · intro h
    unfold release
    rw [h]
  · intro mid hmid hnl hnh
    unfold release
    rw [hmid]
    refine ⟨rfl, ?_, ?_, ?_⟩
    · exact lookupKey_eraseKey_self name t.locks hnl
    · intro other hother
      exact lookupKey_eraseKey_ne name other hother t.locks
    · exact not_mem_erase_self_of_nodup mid t.held hnh

/-- Witness for C8 at a concrete registry with `"k"` registered to mutex 0:
after `Release "k"`, mutex 0 is no longer held. -/
theorem release_semantics_witness : 0 ∉ (release "k" c8table).held :=
  ((release_semantics "k" c8table).2 0 (by decide) (by decide) (by decide)).2.2.2

end Trickster
